import Mathlib

set_option maxHeartbeats 1000000
set_option maxRecDepth 8000

/-!
Verification development for the momentum data-wrangling scripts.

The repository holds three independent batch pipelines:
* `clean.py`    — the Nutrition Extractor: walks meals/dishes JSON, builds a map
  from food name to a list of (nutrient profile, occurrence count) pairs and
  flattens it to CSV rows;
* `clean2.py`   — the Deduplicator: three keep-first deduplication modes over a
  table with a Food Name column;
* `generate.py` — the Synthetic Food Generator: an iteration loop around an LLM
  endpoint with name-based deduplication, an empty-iteration counter,
  checkpointing, numeric cleaning and SQL rendering.

The definitions below are a shallow embedding of those scripts: Python dicts
become association lists with Python dict equality, Python sets become lists
used only through membership, floats become exact rationals (the numeric
strings handled here are plain decimal literals, for which IEEE parsing agrees
with the exact value as far as the properties proved below are concerned), and
the file/network side effects become explicit state passing over outcome
scripts.
-/

/-! ### Character constants (kept out of string literals) -/

def squote : Char := Char.ofNat 39

def dotChar : Char := Char.ofNat 46

def commaChar : Char := Char.ofNat 44

def minusChar : Char := Char.ofNat 45

def plusChar : Char := Char.ofNat 43

def eLowChar : Char := Char.ofNat 101

def eUpChar : Char := Char.ofNat 69

def emptyStr : String := ""

def commaStr : String := String.mk [commaChar]

def squoteStr : String := String.mk [squote]

/-! ### Python `str.replace` (left-to-right, non-overlapping) -/

def pyReplaceGo (old new : List Char) : ℕ → List Char → List Char
  | _, [] => []
  | 0, c :: rest =>
    if (c :: rest).take old.length = old then
      new ++ pyReplaceGo old new (old.length - 1) rest
    else c :: pyReplaceGo old new 0 rest
  | Nat.succ k, _ :: rest => pyReplaceGo old new k rest

def pyReplace (s old new : String) : String :=
  String.mk (pyReplaceGo old.toList new.toList 0 s.toList)

/-! ### Python `float()` on strings

Models the decimal literal forms Python's `float` accepts: surrounding
whitespace, an optional sign, digits with at most one decimal point and an
optional exponent part.  The special forms (`inf`, `nan`, underscore
separators) are outside the scope of the inputs handled by these scripts. -/

def digitsToNat (cs : List Char) : ℕ :=
  cs.foldl (fun a c => 10 * a + (c.toNat - 48)) 0

def parseMantissa? (cs : List Char) : Option ℚ :=
  match cs.dropWhile (fun c => !(c == dotChar)) with
  | [] =>
    if !(cs.takeWhile (fun c => !(c == dotChar))).isEmpty
        && (cs.takeWhile (fun c => !(c == dotChar))).all Char.isDigit then
      some ((digitsToNat (cs.takeWhile (fun c => !(c == dotChar))) : ℕ) : ℚ)
    else none
  | _ :: frac =>
    if frac.all (fun c => !(c == dotChar))
        && (cs.takeWhile (fun c => !(c == dotChar))).all Char.isDigit
        && frac.all Char.isDigit
        && (!(cs.takeWhile (fun c => !(c == dotChar))).isEmpty || !frac.isEmpty) then
      some ((digitsToNat (cs.takeWhile (fun c => !(c == dotChar))) : ℕ)
        + (digitsToNat frac : ℕ) / ((10 : ℚ) ^ frac.length))
    else none

def parseSignedExp? (cs : List Char) : Option ℤ :=
  match cs with
  | [] => none
  | c :: rest =>
    if c == minusChar then
      if !rest.isEmpty && rest.all Char.isDigit then some (-(digitsToNat rest : ℤ)) else none
    else if c == plusChar then
      if !rest.isEmpty && rest.all Char.isDigit then some ((digitsToNat rest : ℤ)) else none
    else
      if (c :: rest).all Char.isDigit then some ((digitsToNat (c :: rest) : ℤ)) else none

def splitOnE (cs : List Char) : List Char × Option (List Char) :=
  let m := cs.takeWhile (fun c => !(c == eLowChar || c == eUpChar))
  let r := cs.dropWhile (fun c => !(c == eLowChar || c == eUpChar))
  match r with
  | [] => (m, none)
  | _ :: rest => (m, some rest)

def parseUnsigned? (cs : List Char) : Option ℚ :=
  match splitOnE cs with
  | (m, none) => parseMantissa? m
  | (m, some e) =>
    match parseMantissa? m, parseSignedExp? e with
    | some mv, some ev => some (mv * (10 : ℚ) ^ ev)
    | _, _ => none

def trimWs (cs : List Char) : List Char :=
  ((cs.dropWhile Char.isWhitespace).reverse.dropWhile Char.isWhitespace).reverse

def pySigned? : List Char → Option ℚ
  | [] => none
  | c :: rest =>
    if c == minusChar then (parseUnsigned? rest).map (fun q => -q)
    else if c == plusChar then parseUnsigned? rest
    else parseUnsigned? (c :: rest)

def pyFloatChars? (cs : List Char) : Option ℚ := pySigned? (trimWs cs)

def pyFloat? (s : String) : Option ℚ := pyFloatChars? s.toList

/-- Python `str.strip()` with no argument: remove leading and trailing
whitespace. -/
def pyStrip (s : String) : String := String.mk (trimWs s.toList)

/-! ### Nutrient values (clean.py, lines 30-35)

`value = float(nutrient[...].replace(...))` with the original string retained
when the conversion raises. -/

inductive NutVal where
  | num (q : ℚ)
  | str (s : String)
deriving DecidableEq, Repr

def normalizeNutrientValue (raw : String) : NutVal :=
  match pyFloat? (pyReplace raw commaStr emptyStr) with
  | some q => NutVal.num q
  | none => NutVal.str raw

/-! ### `clean_numeric_value` (generate.py, lines 49-60)

The Python value is modelled by the string `str(value)` produces for it, with
`none` standing for Python `None`. -/

def clean_numeric_value (value : Option String) (dflt : ℚ) : ℚ :=
  match value with
  | none => dflt
  | some s =>
    let cleaned := s.toList.filter (fun c => c.isDigit || c == dotChar)
    if cleaned.isEmpty then dflt
    else
      match pyFloatChars? cleaned with
      | some q => q
      | none => dflt

def strOneComma234 : String := String.mk [Char.ofNat 49, commaChar, Char.ofNat 50, Char.ofNat 51, Char.ofNat 52]

def strNA : String := String.mk [Char.ofNat 110, Char.ofNat 47, Char.ofNat 97]

def strNeg5 : String := String.mk [minusChar, Char.ofNat 53]

/-! ### Nutrition Extractor data model (clean.py)

A Python dict is an association list in insertion order with no duplicate
keys; `dictInsert` is `d[k] = v` and `dictEqb` is Python dict equality (same
keys, equal values, order ignored). -/

abbrev Profile := List (String × NutVal)

def dictInsert (d : Profile) (k : String) (v : NutVal) : Profile :=
  if (d.lookup k).isSome then
    d.map (fun kv => if kv.1 == k then (k, v) else kv)
  else d ++ [(k, v)]

def mkProfile (nuts : List (String × String)) : Profile :=
  nuts.foldl (fun d nv => dictInsert d nv.1 (normalizeNutrientValue nv.2)) []

def dictEqb (p q : Profile) : Bool :=
  p.all (fun kv => q.lookup kv.1 == some kv.2) && q.all (fun kv => p.lookup kv.1 == some kv.2)

abbrev ProfileList := List (Profile × ℕ)

abbrev FoodMap := List (String × ProfileList)

/-- The accumulation loop body of clean.py (lines 39-47) restricted to one
food name: scan the existing (profile, count) entries; at the first entry
whose profile equals the incoming one, increment its count; if none matches,
append `(p, 1)`. -/
def bump (l : ProfileList) (p : Profile) : ProfileList :=
  match l with
  | [] => [(p, 1)]
  | e :: rest => if dictEqb e.1 p then (e.1, e.2 + 1) :: rest else e :: bump rest p

def lookupFood (m : FoodMap) (n : String) : ProfileList := (m.lookup n).getD []

/-- `unique_foods[food_name]` access plus the scan/append loop: a defaultdict
creates the entry on first access, so the name's list is updated in place when
present and a fresh entry is appended otherwise. -/
def addDish (m : FoodMap) (n : String) (p : Profile) : FoodMap :=
  if (m.lookup n).isSome then
    m.map (fun e => if e.1 == n then (n, bump e.2 p) else e)
  else m ++ [(n, bump [] p)]

structure Dish where
  name : String
  nutritions : List (String × String)
deriving DecidableEq, Repr

structure Meal where
  dishes : Option (List Dish)
deriving DecidableEq, Repr

/-- One input row of the TSV file.  The per-row try in clean.py (lines 17-49)
wraps the whole meals/dishes walk and `unique_foods` is mutated in place with
no rollback, so a row that raises mid-walk (malformed JSON, a dish missing a
key, a malformed nutrient, ...) still leaves the dishes processed before the
failure point merged into the map; each dish itself is processed atomically,
since every raising access (`dish[...]`, `nutrient[...]`) happens before the
map is touched for that dish.  `bad ds` is a row that raised after fully
processing the dishes `ds` (a `json.loads` failure is `bad []`); `good meals`
is a row whose meals column parsed and processed completely. -/
inductive RowInput where
  | bad (processed : List Dish)
  | good (meals : List Meal)
deriving DecidableEq, Repr

def dishProfile (d : Dish) : Profile := mkProfile d.nutritions

def processDish (m : FoodMap) (d : Dish) : FoodMap := addDish m d.name (dishProfile d)

def processMeal (m : FoodMap) (meal : Meal) : FoodMap :=
  match meal.dishes with
  | none => m
  | some ds => ds.foldl processDish m

def processRow (m : FoodMap) (r : RowInput) : FoodMap :=
  match r with
  | .bad ds => ds.foldl processDish m
  | .good meals => meals.foldl processMeal m

def unique_foods (rows : List RowInput) : FoodMap := rows.foldl processRow []

structure CsvRow where
  foodName : String
  profileNo : ℕ
  occurrences : ℕ
  nutrients : Profile
deriving DecidableEq, Repr

/-- The rows `save_to_csv` (clean.py lines 77-95) emits: one per (name,
profile) entry of the map, in map order, carrying the 1-based profile index
and the occurrence count. -/
def save_to_csv (m : FoodMap) : List CsvRow :=
  m.flatMap (fun e =>
    e.2.enum.map (fun ic =>
      ⟨e.1, if e.2.length > 1 then ic.1 + 1 else 1, ic.2.2, ic.2.1⟩))

def sumOcc (m : FoodMap) (n : String) : ℕ := ((lookupFood m n).map Prod.snd).sum

def totalRows (m : FoodMap) : ℕ := (m.map (fun e => e.2.length)).sum

/-- All dishes a row actually merges into the map: the full walk for a
successful row, the already-processed prefix for a failing one. -/
def rowDishes (r : RowInput) : List Dish :=
  match r with
  | .bad ds => ds
  | .good meals => meals.flatMap (fun meal => meal.dishes.getD [])

def processedDishes (rows : List RowInput) : List Dish := rows.flatMap rowDishes

/-- The dishes of the rows that parsed and processed successfully: failing
rows contribute nothing under this (spec-side) reading. -/
def parsedRowDishes (r : RowInput) : List Dish :=
  match r with
  | .bad _ => []
  | .good meals => meals.flatMap (fun meal => meal.dishes.getD [])

def parsedDishes (rows : List RowInput) : List Dish := rows.flatMap parsedRowDishes

def dishPair (d : Dish) : String × Profile := (d.name, dishProfile d)

def pairEqb (a b : String × Profile) : Bool := a.1 == b.1 && dictEqb a.2 b.2

/-- Keep-first deduplication of (name, profile) pairs under Python equality:
the spec-side notion of the distinct pairs accumulated from the parsed rows. -/
def dedupPairsAux (acc : List (String × Profile)) : List (String × Profile) → List (String × Profile)
  | [] => acc
  | x :: xs =>
    if acc.any (fun a => pairEqb a x) then dedupPairsAux acc xs
    else dedupPairsAux (acc ++ [x]) xs

def distinctPairCount (l : List (String × Profile)) : ℕ := (dedupPairsAux [] l).length

/-! ### Association-list lemmas (Python dict lookup) -/

section AssocLemmas

variable {β : Type}

lemma al_lookup_cons_self {k : String} {v : β} {l : List (String × β)} :
    ((k, v) :: l).lookup k = some v := by
  simp [List.lookup]

lemma al_lookup_cons_ne {k a : String} {v : β} {l : List (String × β)} (h : ¬ k = a) :
    ((a, v) :: l).lookup k = l.lookup k := by
  have hb : (k == a) = false := beq_eq_false_iff_ne.mpr h
  simp [List.lookup, hb]

lemma al_lookup_mem {k : String} {v : β} :
    ∀ {l : List (String × β)}, l.lookup k = some v → (k, v) ∈ l := by
  intro l
  induction l with
  | nil => simp [List.lookup]
  | cons e rest ih =>
    obtain ⟨a, b⟩ := e
    by_cases hka : k = a
    · subst hka
      rw [al_lookup_cons_self]
      intro h
      cases h
      exact List.mem_cons_self _ _
    · intro h
      rw [al_lookup_cons_ne hka] at h
      exact List.mem_cons_of_mem _ (ih h)

lemma al_lookup_none {k : String} :
    ∀ {l : List (String × β)}, l.lookup k = none ↔ k ∉ l.map Prod.fst := by
  intro l
  induction l with
  | nil => simp [List.lookup]
  | cons e rest ih =>
    obtain ⟨a, b⟩ := e
    by_cases hka : k = a
    · subst hka
      simp [al_lookup_cons_self]
    · rw [al_lookup_cons_ne hka]
      simp [ih, hka]

lemma al_lookup_append_some {k : String} {v : β} :
    ∀ {l1 : List (String × β)} (l2 : List (String × β)),
      l1.lookup k = some v → (l1 ++ l2).lookup k = some v := by
  intro l1
  induction l1 with
  | nil => simp [List.lookup]
  | cons e rest ih =>
    obtain ⟨a, b⟩ := e
    intro l2
    by_cases hka : k = a
    · subst hka
      rw [al_lookup_cons_self]
      intro h
      cases h
      exact al_lookup_cons_self
    · rw [al_lookup_cons_ne hka, List.cons_append, al_lookup_cons_ne hka]
      exact ih l2

lemma al_lookup_append_none {k : String} :
    ∀ {l1 : List (String × β)} (l2 : List (String × β)),
      l1.lookup k = none → (l1 ++ l2).lookup k = l2.lookup k := by
  intro l1
  induction l1 with
  | nil => simp
  | cons e rest ih =>
    obtain ⟨a, b⟩ := e
    intro l2
    by_cases hka : k = a
    · subst hka
      rw [al_lookup_cons_self]
      intro h
      cases h
    · rw [al_lookup_cons_ne hka, List.cons_append, al_lookup_cons_ne hka]
      exact ih l2

lemma al_lookup_of_mem_nodup {k : String} {v : β} :
    ∀ {l : List (String × β)}, (l.map Prod.fst).Nodup → (k, v) ∈ l → l.lookup k = some v := by
  intro l
  induction l with
  | nil => simp
  | cons e rest ih =>
    obtain ⟨a, b⟩ := e
    intro hnd hm
    by_cases hka : k = a
    · subst hka
      rcases List.mem_cons.mp hm with h | h
      · cases h
        exact al_lookup_cons_self
      · exfalso
        have : k ∈ rest.map Prod.fst := List.mem_map_of_mem Prod.fst h
        exact (List.nodup_cons.mp (by simpa using hnd)).1 this
    · rcases List.mem_cons.mp hm with h | h
      · exact absurd (congrArg Prod.fst h) hka
      · rw [al_lookup_cons_ne hka]
        exact ih (List.nodup_cons.mp (by simpa using hnd)).2 h

end AssocLemmas

/-! ### Dict equality lemmas -/

def NodupKeys (d : Profile) : Prop := (d.map Prod.fst).Nodup

lemma dictEqb_iff {p q : Profile} (hp : NodupKeys p) (hq : NodupKeys q) :
    dictEqb p q = true ↔ ∀ k, p.lookup k = q.lookup k := by
  unfold dictEqb
  rw [Bool.and_eq_true, List.all_eq_true, List.all_eq_true]
  constructor
  · rintro ⟨h1, h2⟩ k
    cases hpl : p.lookup k with
    | some v =>
      have hm := al_lookup_mem hpl
      have hql : q.lookup k = some v := by
        have := h1 ⟨k, v⟩ hm
        simpa using this
      exact hql.symm
    | none =>
      cases hql : q.lookup k with
      | some w =>
        have hm := al_lookup_mem hql
        have : p.lookup k = some w := by
          have := h2 ⟨k, w⟩ hm
          simpa using this
        rw [hpl] at this
        cases this
      | none => rfl
  · intro h
    constructor
    · intro kv hm
      have : p.lookup kv.1 = some kv.2 := al_lookup_of_mem_nodup hp hm
      simp [← h kv.1, this]
    · intro kv hm
      have : q.lookup kv.1 = some kv.2 := al_lookup_of_mem_nodup hq hm
      simp [h kv.1, this]

lemma dictEqb_refl {p : Profile} (hp : NodupKeys p) : dictEqb p p = true :=
  (dictEqb_iff hp hp).mpr (fun _ => rfl)

lemma dictEqb_symm {p q : Profile} : dictEqb p q = dictEqb q p := by
  unfold dictEqb
  exact Bool.and_comm _ _

lemma dictEqb_trans {p q r : Profile} (hp : NodupKeys p) (hq : NodupKeys q) (hr : NodupKeys r)
    (h1 : dictEqb p q = true) (h2 : dictEqb q r = true) : dictEqb p r = true :=
  (dictEqb_iff hp hr).mpr
    (fun k => ((dictEqb_iff hp hq).mp h1 k).trans ((dictEqb_iff hq hr).mp h2 k))

lemma dictInsert_keys (d : Profile) (k : String) (v : NutVal) :
    (dictInsert d k v).map Prod.fst =
      if (d.lookup k).isSome then d.map Prod.fst else d.map Prod.fst ++ [k] := by
  unfold dictInsert
  by_cases h : (d.lookup k).isSome
  · simp only [h, if_true, List.map_map]
    apply List.map_congr_left
    intro kv _
    by_cases hk : kv.1 = k
    · simp [Function.comp_apply, hk]
    · simp [Function.comp_apply, hk]
  · simp [h]

lemma dictInsert_nodupKeys {d : Profile} (hd : NodupKeys d) (k : String) (v : NutVal) :
    NodupKeys (dictInsert d k v) := by
  unfold NodupKeys
  rw [dictInsert_keys]
  by_cases h : (d.lookup k).isSome
  · simpa [h] using hd
  · have hnone : d.lookup k = none := Option.not_isSome_iff_eq_none.mp h
    have hk : k ∉ d.map Prod.fst := al_lookup_none.mp hnone
    have hred : (if (d.lookup k).isSome = true then d.map Prod.fst
        else d.map Prod.fst ++ [k]) = d.map Prod.fst ++ [k] := by
      simp [hnone]
    rw [hred, List.nodup_append]
    exact ⟨hd, List.nodup_singleton k, by simpa using hk⟩

lemma mkProfile_nodupKeys (nuts : List (String × String)) : NodupKeys (mkProfile nuts) := by
  unfold mkProfile
  have : ∀ (l : List (String × String)) (d : Profile), NodupKeys d →
      NodupKeys (l.foldl (fun d nv => dictInsert d nv.1 (normalizeNutrientValue nv.2)) d) := by
    intro l
    induction l with
    | nil => intro d hd; exact hd
    | cons nv rest ih =>
      intro d hd
      exact ih _ (dictInsert_nodupKeys hd _ _)
  exact this nuts [] (by simp [NodupKeys])

/-! ### Lemmas about the per-name accumulation loop (`bump`) -/

def PLND (l : ProfileList) : Prop := ∀ e ∈ l, NodupKeys e.1

lemma bump_sum (l : ProfileList) (p : Profile) :
    ((bump l p).map Prod.snd).sum = ((l.map Prod.snd).sum) + 1 := by
  induction l with
  | nil => simp [bump]
  | cons e rest ih =>
    by_cases h : dictEqb e.1 p
    · simp [bump, h]
      omega
    · simp [bump, h, ih]
      omega

lemma bump_length (l : ProfileList) (p : Profile) :
    (bump l p).length =
      if l.any (fun e => dictEqb e.1 p) then l.length else l.length + 1 := by
  induction l with
  | nil => simp [bump]
  | cons e rest ih =>
    by_cases h : dictEqb e.1 p
    · simp [bump, h]
    · by_cases h2 : rest.any (fun x => dictEqb x.1 p)
      · simp [bump, h, ih, h2]
      · simp [bump, h, ih, h2]

lemma bump_PLND {l : ProfileList} {p : Profile} (hl : PLND l) (hp : NodupKeys p) :
    PLND (bump l p) := by
  induction l with
  | nil =>
    intro e he
    simp [bump] at he
    rw [he]
    exact hp
  | cons a rest ih =>
    by_cases h : dictEqb a.1 p
    · intro e he
      simp [bump, h] at he
      rcases he with he | he
      · rw [he]
        exact hl a (List.mem_cons_self _ _)
      · exact hl e (List.mem_cons_of_mem _ he)
    · intro e he
      simp only [bump, h, if_false, Bool.false_eq_true] at he
      rcases List.mem_cons.mp he with he | he
      · rw [he]
        exact hl a (List.mem_cons_self _ _)
      · exact ih (fun x hx => hl x (List.mem_cons_of_mem _ hx)) e he

lemma bump_any {l : ProfileList} {p q : Profile} (hl : PLND l) (hp : NodupKeys p)
    (hq : NodupKeys q) :
    (bump l p).any (fun e => dictEqb e.1 q) =
      (l.any (fun e => dictEqb e.1 q) || dictEqb p q) := by
  induction l with
  | nil => simp [bump]
  | cons a rest ih =>
    have ha : NodupKeys a.1 := hl a (List.mem_cons_self _ _)
    have hrest : PLND rest := fun x hx => hl x (List.mem_cons_of_mem _ hx)
    by_cases h : dictEqb a.1 p
    · simp only [bump, h, if_true, List.any_cons]
      by_cases hpq : dictEqb p q
      · have haq : dictEqb a.1 q = true := dictEqb_trans ha hp hq h hpq
        simp [haq, hpq]
      · simp only [hpq, Bool.or_false]
    · simp only [bump, h, if_false, Bool.false_eq_true, List.any_cons,
        ih hrest]
      cases dictEqb a.1 q <;> simp
/-! ### Lemmas about `addDish` -/

def FMnodup (m : FoodMap) : Prop := (m.map Prod.fst).Nodup

def FMND (m : FoodMap) : Prop := ∀ e ∈ m, PLND e.2

lemma addDish_map_lookup_self (m : FoodMap) (n : String) (p : Profile) :
    (m.map (fun e => if e.1 == n then (n, bump e.2 p) else e)).lookup n
      = (m.lookup n).map (fun l => bump l p) := by
  induction m with
  | nil => simp [List.lookup]
  | cons e rest ih =>
    obtain ⟨a, l⟩ := e
    by_cases hba : a = n
    · subst hba
      simp only [List.map_cons, beq_self_eq_true, if_true]
      rw [al_lookup_cons_self, al_lookup_cons_self]
      rfl
    · have hb : (a == n) = false := beq_eq_false_iff_ne.mpr hba
      have hna : ¬ n = a := fun hh => hba hh.symm
      simp only [List.map_cons, hb, Bool.false_eq_true, if_false]
      rw [al_lookup_cons_ne hna, al_lookup_cons_ne hna]
      exact ih

lemma addDish_map_lookup_ne (m : FoodMap) {n k : String} (p : Profile) (hk : ¬ k = n) :
    (m.map (fun e => if e.1 == n then (n, bump e.2 p) else e)).lookup k = m.lookup k := by
  induction m with
  | nil => simp
  | cons e rest ih =>
    obtain ⟨a, l⟩ := e
    by_cases hba : a = n
    · subst hba
      simp only [List.map_cons, beq_self_eq_true, if_true]
      rw [al_lookup_cons_ne hk, al_lookup_cons_ne hk]
      exact ih
    · have hb : (a == n) = false := beq_eq_false_iff_ne.mpr hba
      simp only [List.map_cons, hb, Bool.false_eq_true, if_false]
      by_cases hka : k = a
      · subst hka
        rw [al_lookup_cons_self, al_lookup_cons_self]
      · rw [al_lookup_cons_ne hka, al_lookup_cons_ne hka]
        exact ih

lemma lookupFood_addDish_self (m : FoodMap) (n : String) (p : Profile) :
    lookupFood (addDish m n p) n = bump (lookupFood m n) p := by
  unfold addDish lookupFood
  cases h : m.lookup n with
  | none =>
    simp only [h, Option.isSome_none, Bool.false_eq_true, if_false]
    rw [al_lookup_append_none _ h, al_lookup_cons_self]
    rfl
  | some l =>
    simp only [h, Option.isSome_some, if_true]
    rw [addDish_map_lookup_self, h]
    rfl

lemma lookupFood_addDish_ne (m : FoodMap) {n k : String} (p : Profile) (hk : ¬ k = n) :
    lookupFood (addDish m n p) k = lookupFood m k := by
  unfold addDish lookupFood
  by_cases h : (m.lookup n).isSome
  · simp only [h, if_true]
    rw [addDish_map_lookup_ne m p hk]
  · have hnone : m.lookup n = none := Option.not_isSome_iff_eq_none.mp h
    simp only [h, Bool.false_eq_true, if_false]
    cases hmk : m.lookup k with
    | none =>
      rw [al_lookup_append_none _ hmk, al_lookup_cons_ne hk]
      simp [List.lookup]
    | some v =>
      rw [al_lookup_append_some _ hmk]

lemma addDish_keys (m : FoodMap) (n : String) (p : Profile) :
    (addDish m n p).map Prod.fst =
      if (m.lookup n).isSome then m.map Prod.fst else m.map Prod.fst ++ [n] := by
  unfold addDish
  by_cases h : (m.lookup n).isSome
  · simp only [h, if_true, List.map_map]
    apply List.map_congr_left
    intro e _
    by_cases he : e.1 = n
    · simp [Function.comp_apply, he]
    · simp [Function.comp_apply, he]
  · simp [h]

lemma FMnodup_addDish {m : FoodMap} (hm : FMnodup m) (n : String) (p : Profile) :
    FMnodup (addDish m n p) := by
  unfold FMnodup
  rw [addDish_keys]
  by_cases h : (m.lookup n).isSome
  · simpa [h] using hm
  · have hnone : m.lookup n = none := Option.not_isSome_iff_eq_none.mp h
    have hk : n ∉ m.map Prod.fst := al_lookup_none.mp hnone
    have hred : (if (m.lookup n).isSome = true then m.map Prod.fst
        else m.map Prod.fst ++ [n]) = m.map Prod.fst ++ [n] := by
      simp [hnone]
    rw [hred, List.nodup_append]
    exact ⟨hm, List.nodup_singleton n, by simpa using hk⟩

lemma FMND_addDish {m : FoodMap} (hm : FMND m) {n : String} {p : Profile}
    (hp : NodupKeys p) : FMND (addDish m n p) := by
  unfold addDish
  by_cases h : (m.lookup n).isSome
  · simp only [h, if_true]
    intro e he
    obtain ⟨x, hx, rfl⟩ := List.mem_map.mp he
    by_cases hxn : x.1 = n
    · have hb : (x.1 == n) = true := beq_iff_eq.mpr hxn
      simp only [hb, if_true]
      exact bump_PLND (hm x hx) hp
    · have hb : (x.1 == n) = false := beq_eq_false_iff_ne.mpr hxn
      simp only [hb, Bool.false_eq_true, if_false]
      exact hm x hx
  · simp only [h, Bool.false_eq_true, if_false]
    intro e he
    rcases List.mem_append.mp he with h1 | h1
    · exact hm e h1
    · have he2 : e = (n, bump [] p) := by simpa using h1
      rw [he2]
      intro x hx
      simp [bump] at hx
      rw [hx]
      exact hp

lemma PLND_lookupFood {m : FoodMap} (hm : FMND m) (n : String) :
    PLND (lookupFood m n) := by
  unfold lookupFood
  cases h : m.lookup n with
  | none => intro x hx; simp at hx
  | some l => exact hm (n, l) (al_lookup_mem h)

lemma totalRows_cons (e : String × ProfileList) (m : FoodMap) :
    totalRows (e :: m) = e.2.length + totalRows m := by
  simp [totalRows]

lemma totalRows_map_bump {n : String} {p : Profile} :
    ∀ {m : FoodMap}, FMnodup m → ∀ {l : ProfileList}, m.lookup n = some l →
      totalRows (m.map (fun e => if e.1 == n then (n, bump e.2 p) else e)) =
        totalRows m + (if l.any (fun e => dictEqb e.1 p) then 0 else 1) := by
  intro m
  induction m with
  | nil => intro _ l h; simp [List.lookup] at h
  | cons e rest ih =>
    obtain ⟨a, la⟩ := e
    intro hnd l h
    have hnd2 : (a :: rest.map Prod.fst).Nodup := by
      have := hnd
      unfold FMnodup at this
      simpa using this
    by_cases hna : n = a
    · subst hna
      rw [al_lookup_cons_self] at h
      have hla : la = l := by injection h
      subst hla
      have hnotin : n ∉ rest.map Prod.fst := (List.nodup_cons.mp hnd2).1
      have hrest : rest.map (fun e => if e.1 == n then (n, bump e.2 p) else e) = rest := by
        have h1 : rest.map (fun e => if e.1 == n then (n, bump e.2 p) else e)
            = rest.map id := by
          apply List.map_congr_left
          intro x hx
          have hx1 : x.1 ≠ n := by
            intro hc
            exact hnotin (hc ▸ List.mem_map_of_mem Prod.fst hx)
          have hb : (x.1 == n) = false := beq_eq_false_iff_ne.mpr hx1
          simp [hb]
        simpa using h1
      simp only [List.map_cons, beq_self_eq_true, if_true, hrest, totalRows_cons]
      rw [bump_length]
      by_cases hany : la.any (fun e => dictEqb e.1 p)
      · simp [hany]
      · simp only [hany, Bool.false_eq_true, if_false]
        omega
    · have hb : (a == n) = false := beq_eq_false_iff_ne.mpr (fun hh => hna hh.symm)
      rw [al_lookup_cons_ne hna] at h
      simp only [List.map_cons, hb, Bool.false_eq_true, if_false, totalRows_cons]
      rw [ih (List.nodup_cons.mp hnd2).2 h]
      omega

lemma totalRows_addDish {m : FoodMap} (hm : FMnodup m) (n : String) (p : Profile) :
    totalRows (addDish m n p) =
      totalRows m + (if (lookupFood m n).any (fun e => dictEqb e.1 p) then 0 else 1) := by
  unfold addDish
  cases h : m.lookup n with
  | none =>
    simp only [h, Option.isSome_none, Bool.false_eq_true, if_false]
    have hl : lookupFood m n = [] := by unfold lookupFood; rw [h]; rfl
    rw [hl]
    simp [totalRows, bump]
  | some l =>
    simp only [h, Option.isSome_some, if_true]
    have hl : lookupFood m n = l := by unfold lookupFood; rw [h]; rfl
    rw [hl]
    exact totalRows_map_bump hm h

lemma sumOcc_addDish_self (m : FoodMap) (n : String) (p : Profile) :
    sumOcc (addDish m n p) n = sumOcc m n + 1 := by
  unfold sumOcc
  rw [lookupFood_addDish_self, bump_sum]

lemma sumOcc_addDish_ne (m : FoodMap) {n k : String} (p : Profile) (hk : ¬ k = n) :
    sumOcc (addDish m n p) k = sumOcc m k := by
  unfold sumOcc
  rw [lookupFood_addDish_ne m p hk]

/-! ### The extractor pipeline as a fold over dishes -/

def containsPairB (m : FoodMap) (x : String × Profile) : Bool :=
  (lookupFood m x.1).any (fun e => dictEqb e.1 x.2)

def addAll (ds : List Dish) : FoodMap := ds.foldl processDish []

lemma addAll_append (ds : List Dish) (d : Dish) :
    addAll (ds ++ [d]) = addDish (addAll ds) d.name (dishProfile d) := by
  unfold addAll
  rw [List.foldl_append]
  rfl

lemma FMND_addAll (ds : List Dish) : FMND (addAll ds) := by
  induction ds using List.reverseRecOn with
  | nil => intro e he; simp [addAll] at he
  | append_singleton l d ih =>
    rw [addAll_append]
    exact FMND_addDish ih (mkProfile_nodupKeys _)

lemma FMnodup_addAll (ds : List Dish) : FMnodup (addAll ds) := by
  induction ds using List.reverseRecOn with
  | nil => simp [addAll, FMnodup]
  | append_singleton l d ih =>
    rw [addAll_append]
    exact FMnodup_addDish ih _ _

lemma dishPair_ND (d : Dish) : NodupKeys (dishPair d).2 := mkProfile_nodupKeys _

lemma dishProfile_ND (d : Dish) : NodupKeys (dishProfile d) := mkProfile_nodupKeys _

lemma pairEqb_trans {a b c : String × Profile} (ha : NodupKeys a.2) (hb : NodupKeys b.2)
    (hc : NodupKeys c.2) (h1 : pairEqb a b = true) (h2 : pairEqb b c = true) :
    pairEqb a c = true := by
  unfold pairEqb at h1 h2 ⊢
  rw [Bool.and_eq_true] at h1 h2 ⊢
  obtain ⟨h1a, h1b⟩ := h1
  obtain ⟨h2a, h2b⟩ := h2
  constructor
  · rw [beq_iff_eq] at h1a h2a ⊢
    exact h1a.trans h2a
  · exact dictEqb_trans ha hb hc h1b h2b

lemma containsPairB_addDish {m : FoodMap} (hm : FMND m) {n : String} {p : Profile}
    (hp : NodupKeys p) {x : String × Profile} (hx : NodupKeys x.2) :
    containsPairB (addDish m n p) x =
      (containsPairB m x || (n == x.1 && dictEqb p x.2)) := by
  unfold containsPairB
  by_cases hxn : x.1 = n
  · rw [hxn, lookupFood_addDish_self]
    rw [bump_any (PLND_lookupFood hm n) hp hx]
    have hb : (n == x.1) = true := beq_iff_eq.mpr hxn.symm
    simp [hb, hxn]
  · rw [lookupFood_addDish_ne m p hxn]
    have hb : (n == x.1) = false := beq_eq_false_iff_ne.mpr (fun hh => hxn hh.symm)
    simp [hb]

lemma containsPairB_addAll (ds : List Dish) (x : String × Profile) (hx : NodupKeys x.2) :
    containsPairB (addAll ds) x = (ds.map dishPair).any (fun a => pairEqb a x) := by
  induction ds using List.reverseRecOn with
  | nil => simp [addAll, containsPairB, lookupFood, List.lookup]
  | append_singleton l d ih =>
    rw [addAll_append, containsPairB_addDish (FMND_addAll l) (dishProfile_ND d) hx]
    rw [ih]
    simp [pairEqb, dishPair, dishProfile]

lemma dedupPairsAux_append (l : List (String × Profile)) (x : String × Profile) :
    ∀ (acc : List (String × Profile)),
    dedupPairsAux acc (l ++ [x]) =
      (if (dedupPairsAux acc l).any (fun a => pairEqb a x) then dedupPairsAux acc l
       else dedupPairsAux acc l ++ [x]) := by
  induction l with
  | nil => intro acc; simp [dedupPairsAux]
  | cons y ys ih =>
    intro acc
    by_cases h : acc.any (fun a => pairEqb a y)
    · simp only [List.cons_append, dedupPairsAux, h, if_true]
      exact ih acc
    · simp only [List.cons_append, dedupPairsAux, h, Bool.false_eq_true, if_false]
      exact ih (acc ++ [y])

lemma dedupPairsAux_any (x : String × Profile) (hx : NodupKeys x.2) :
    ∀ (l : List (String × Profile)), (∀ a ∈ l, NodupKeys a.2) →
    ∀ (acc : List (String × Profile)), (∀ a ∈ acc, NodupKeys a.2) →
      (dedupPairsAux acc l).any (fun a => pairEqb a x) =
        (acc.any (fun a => pairEqb a x) || l.any (fun a => pairEqb a x)) := by
  intro l
  induction l with
  | nil => intro _ acc _; simp [dedupPairsAux]
  | cons y ys ih =>
    intro hl acc hacc
    have hy : NodupKeys y.2 := hl y (List.mem_cons_self _ _)
    have hys : ∀ a ∈ ys, NodupKeys a.2 := fun a ha => hl a (List.mem_cons_of_mem _ ha)
    by_cases h : acc.any (fun a => pairEqb a y)
    · rw [show dedupPairsAux acc (y :: ys) = dedupPairsAux acc ys from by
        simp [dedupPairsAux, h]]
      rw [ih hys acc hacc]
      by_cases hyx : pairEqb y x
      · obtain ⟨a, ha, hay⟩ := List.any_eq_true.mp h
        have hax : pairEqb a x = true := pairEqb_trans (hacc a ha) hy hx hay hyx
        have hacc2 : acc.any (fun a => pairEqb a x) = true :=
          List.any_eq_true.mpr ⟨a, ha, hax⟩
        simp [hacc2, hyx]
      · simp [hyx]
    · rw [show dedupPairsAux acc (y :: ys) = dedupPairsAux (acc ++ [y]) ys from by
        simp [dedupPairsAux, h]]
      have haccy : ∀ a ∈ acc ++ [y], NodupKeys a.2 := by
        intro a ha
        rcases List.mem_append.mp ha with h1 | h1
        · exact hacc a h1
        · have : a = y := by simpa using h1
          rw [this]
          exact hy
      rw [ih hys (acc ++ [y]) haccy]
      simp [List.any_append, Bool.or_assoc]

lemma totalRows_addAll (ds : List Dish) :
    totalRows (addAll ds) = distinctPairCount (ds.map dishPair) := by
  induction ds using List.reverseRecOn with
  | nil => simp [addAll, totalRows, distinctPairCount, dedupPairsAux]
  | append_singleton l d ih =>
    rw [addAll_append, totalRows_addDish (FMnodup_addAll l)]
    unfold distinctPairCount
    rw [List.map_append]
    simp only [List.map_singleton]
    rw [dedupPairsAux_append]
    have hmapND : ∀ a ∈ l.map dishPair, NodupKeys a.2 := by
      intro a ha
      obtain ⟨d0, _, rfl⟩ := List.mem_map.mp ha
      exact dishPair_ND d0
    have hded := dedupPairsAux_any (dishPair d) (dishPair_ND d) (l.map dishPair) hmapND
      [] (by intro a ha; simp at ha)
    have hbridge : ((lookupFood (addAll l) d.name).any (fun e => dictEqb e.1 (dishProfile d)))
        = containsPairB (addAll l) (dishPair d) := rfl
    rw [hbridge, containsPairB_addAll l (dishPair d) (dishPair_ND d)]
    simp only [List.any_nil, Bool.false_or] at hded
    rw [hded, ih]
    unfold distinctPairCount
    by_cases hany : (l.map dishPair).any (fun a => pairEqb a (dishPair d))
    · simp [hany]
    · simp only [hany, Bool.false_eq_true, if_false]
      rw [List.length_append]
      simp

lemma sumOcc_addAll (ds : List Dish) (n : String) :
    sumOcc (addAll ds) n = ds.countP (fun d => d.name == n) := by
  induction ds using List.reverseRecOn with
  | nil => simp [addAll, sumOcc, lookupFood, List.lookup]
  | append_singleton l d ih =>
    rw [addAll_append, List.countP_append]
    by_cases h : d.name = n
    · rw [show addDish (addAll l) d.name (dishProfile d)
          = addDish (addAll l) n (dishProfile d) from by rw [h]]
      rw [sumOcc_addDish_self, ih]
      have hb : (d.name == n) = true := beq_iff_eq.mpr h
      simp [List.countP_cons, hb]
    · rw [sumOcc_addDish_ne _ _ (fun hh => h hh.symm), ih]
      have hb : (d.name == n) = false := beq_eq_false_iff_ne.mpr h
      simp [List.countP_cons, hb]

/-! ### Relating `unique_foods` to the dish fold -/

lemma processMeal_eq (m : FoodMap) (meal : Meal) :
    processMeal m meal = (meal.dishes.getD []).foldl processDish m := by
  obtain ⟨dishes⟩ := meal
  cases dishes <;> simp [processMeal]

lemma foldl_processMeal (meals : List Meal) : ∀ (m : FoodMap),
    meals.foldl processMeal m
      = (meals.flatMap (fun me => me.dishes.getD [])).foldl processDish m := by
  induction meals with
  | nil => intro m; simp
  | cons me rest ih =>
    intro m
    simp only [List.foldl_cons, List.flatMap_cons, List.foldl_append]
    rw [processMeal_eq]
    exact ih _

lemma processRow_eq (m : FoodMap) (r : RowInput) :
    processRow m r = (rowDishes r).foldl processDish m := by
  cases r with
  | bad ds => rfl
  | good meals =>
    simp only [processRow, rowDishes]
    exact foldl_processMeal meals m

lemma unique_foods_eq_addAll (rows : List RowInput) :
    unique_foods rows = addAll (processedDishes rows) := by
  unfold unique_foods addAll processedDishes
  suffices h : ∀ (m : FoodMap),
      rows.foldl processRow m = (rows.flatMap rowDishes).foldl processDish m from h []
  induction rows with
  | nil => intro m; simp
  | cons r rest ih =>
    intro m
    simp only [List.foldl_cons, List.flatMap_cons, List.foldl_append]
    rw [processRow_eq]
    exact ih _

lemma save_to_csv_length (m : FoodMap) : (save_to_csv m).length = totalRows m := by
  unfold save_to_csv totalRows
  rw [List.length_flatMap]
  simp [Function.comp_def, List.enum_length]

/-! ### Further `bump` characterization lemmas -/

lemma bump_no_match_append : ∀ (l : ProfileList) (p : Profile),
    l.any (fun e => dictEqb e.1 p) = false → bump l p = l ++ [(p, 1)] := by
  intro l
  induction l with
  | nil => intro p _; simp [bump]
  | cons e rest ih =>
    intro p h
    rw [List.any_cons, Bool.or_eq_false_iff] at h
    simp only [bump, h.1, Bool.false_eq_true, if_false, List.cons_append]
    rw [ih p h.2]

lemma bump_merge_at : ∀ (l : ProfileList) (p : Profile) (i : ℕ) (hi : i < l.length),
    ((l.take i).all (fun e => !(dictEqb e.1 p))) = true →
    dictEqb (l.get ⟨i, hi⟩).1 p = true →
    bump l p = l.take i ++ ((l.get ⟨i, hi⟩).1, (l.get ⟨i, hi⟩).2 + 1) :: l.drop (i + 1) := by
  intro l
  induction l with
  | nil => intro p i hi; simp at hi
  | cons e rest ih =>
    intro p i hi hall hget
    cases i with
    | zero =>
      have hget0 : dictEqb e.1 p = true := hget
      simp [bump, hget0]
    | succ j =>
      have he : dictEqb e.1 p = false := by
        rw [List.take_succ_cons, List.all_cons, Bool.and_eq_true] at hall
        simpa using hall.1
      have hall2 : ((rest.take j).all (fun e => !(dictEqb e.1 p))) = true := by
        rw [List.take_succ_cons, List.all_cons, Bool.and_eq_true] at hall
        exact hall.2
      have hj : j < rest.length := by simpa using hi
      have hget2 : dictEqb (rest.get ⟨j, hj⟩).1 p = true := hget
      simp only [bump, he, Bool.false_eq_true, if_false]
      rw [ih p j hj hall2 hget2]
      simp [List.take_succ_cons, List.drop_succ_cons]

/-! ### The Oats example -/

def oatsName : String := "Oats"

def caloriesStr : String := "Calories"

def v100 : String := "100"

def v200 : String := "200"

def oatsDish1 : Dish := ⟨oatsName, [(caloriesStr, v100)]⟩

def oatsDish2 : Dish := ⟨oatsName, [(caloriesStr, v200)]⟩

def oatsRows : List RowInput := [RowInput.good [⟨some [oatsDish1, oatsDish1, oatsDish2]⟩]]

def oatsProfile1 : Profile := [(caloriesStr, NutVal.num 100)]

def oatsProfile2 : Profile := [(caloriesStr, NutVal.num 200)]

/-! ### Claim theorems for the Nutrition Extractor -/

def badRowInput : List RowInput := [RowInput.bad [oatsDish1]]

/-- C3 counterexample: a row that raises after its first dish was already
merged - clean.py's per-row except performs no rollback - yields one output
row and one counted occurrence, although zero dishes come from successfully
parsed rows; both claimed equalities fail at this input. -/
theorem C3_counterexample :
    (save_to_csv (unique_foods badRowInput)).length = 1
      ∧ distinctPairCount ((parsedDishes badRowInput).map dishPair) = 0
      ∧ sumOcc (unique_foods badRowInput) oatsName = 1
      ∧ (parsedDishes badRowInput).countP (fun d => d.name == oatsName) = 0 := by
  decide

/-- C3 (amended): for every extractor input, the number of rows `save_to_csv`
emits equals the number of distinct (food name, nutrient profile) pairs among
the dishes actually processed - all dishes of successfully parsed rows plus,
for each failing row, the dishes already processed before its exception - and
for every food name the occurrence counts of that name's profiles sum to the
number of processed dishes bearing that name. -/
theorem C3_extractor_output_counts (rows : List RowInput) :
    (save_to_csv (unique_foods rows)).length
        = distinctPairCount ((processedDishes rows).map dishPair)
      ∧ ∀ n : String,
          sumOcc (unique_foods rows) n
            = (processedDishes rows).countP (fun d => d.name == n) := by
  constructor
  · rw [save_to_csv_length, unique_foods_eq_addAll, totalRows_addAll]
  · intro n
    rw [unique_foods_eq_addAll]
    exact sumOcc_addAll (processedDishes rows) n

/-- C4: when a dish is processed, if the food name's existing (profile, count)
list already holds a profile dict-equal to the dish's profile then the first
such entry's count is incremented and nothing is appended; otherwise a new
(profile, 1) entry is appended at the end.  Two identical Oats dishes share
one profile with count 2 and a third differing Oats dish creates a second
profile with count 1. -/
theorem C4_profile_merge :
    (∀ (l : ProfileList) (p : Profile),
        l.any (fun e => dictEqb e.1 p) = false → bump l p = l ++ [(p, 1)])
      ∧ (∀ (l : ProfileList) (p : Profile) (i : ℕ) (hi : i < l.length),
          ((l.take i).all (fun e => !(dictEqb e.1 p))) = true →
          dictEqb (l.get ⟨i, hi⟩).1 p = true →
          bump l p
            = l.take i ++ ((l.get ⟨i, hi⟩).1, (l.get ⟨i, hi⟩).2 + 1) :: l.drop (i + 1))
      ∧ (∀ (m : FoodMap) (n : String) (p : Profile),
          lookupFood (addDish m n p) n = bump (lookupFood m n) p)
      ∧ unique_foods oatsRows = [(oatsName, [(oatsProfile1, 2), (oatsProfile2, 1)])] :=
  ⟨bump_no_match_append, bump_merge_at, lookupFood_addDish_self, by decide⟩

/-- C4 witness: applying the merge branch of the accumulation loop at a
concrete list and profile. -/
theorem C4_profile_merge_witness :
    bump [(oatsProfile1, 3)] oatsProfile1 = [(oatsProfile1, 4)] := by
  have h := C4_profile_merge.2.1 [(oatsProfile1, 3)] oatsProfile1 0 (by decide)
    (by decide) (by decide)
  simpa using h

/-- C5: each nutrient value string has its commas stripped and is converted to
a number; when the conversion fails the original string is retained unchanged.
Concretely the string 1,234 normalizes to the number 1234 and n/a stays the
literal string n/a. -/
theorem C5_nutrient_value_normalization :
    (∀ s : String, (∃ q, normalizeNutrientValue s = NutVal.num q)
        ∨ normalizeNutrientValue s = NutVal.str s)
      ∧ normalizeNutrientValue strOneComma234 = NutVal.num 1234
      ∧ normalizeNutrientValue strNA = NutVal.str strNA := by
  refine ⟨?_, by decide, by decide⟩
  intro s
  unfold normalizeNutrientValue
  cases h : pyFloat? (pyReplace s commaStr emptyStr) with
  | some q => exact Or.inl ⟨q, rfl⟩
  | none => exact Or.inr rfl

/-! ### Deduplicator model (clean2.py)

A table row is its Food Name plus the remaining cell values.  The two pandas
primitives used by the script are modelled directly: `duplicated(keep=first)`
marks a row whose Food Name occurred at an earlier row, and
`drop_duplicates(keep=first)` keeps a row exactly when its Food Name has not
occurred earlier. -/

structure Row where
  foodName : String
  rest : List String
deriving DecidableEq, Repr

def pdDuplicatedMask (seen : List String) : List Row → List Bool
  | [] => []
  | r :: rows =>
    if seen.contains r.foodName then true :: pdDuplicatedMask seen rows
    else false :: pdDuplicatedMask (r.foodName :: seen) rows

def pdDropDuplicates (seen : List String) : List Row → List Row
  | [] => []
  | r :: rows =>
    if seen.contains r.foodName then pdDropDuplicates seen rows
    else r :: pdDropDuplicates (r.foodName :: seen) rows

/-- `df[~mask]`: keep the rows whose mask entry is false. -/
def maskKeep : List Row → List Bool → List Row
  | [], _ => []
  | _ :: _, [] => []
  | r :: rows, b :: bs => if b then maskKeep rows bs else r :: maskKeep rows bs

/-- clean2.py lines 3-35: `df.drop_duplicates(subset=[Food Name], keep=first)`. -/
def remove_duplicate_food_names (rows : List Row) : List Row :=
  pdDropDuplicates [] rows

/-- clean2.py lines 37-91: the kept rows `df[~df.duplicated(subset=[Food Name],
keep=first)]` (the separately written removal summary is not needed by any
claim about the kept rows). -/
def remove_duplicates_and_summarize (rows : List Row) : List Row :=
  maskKeep rows (pdDuplicatedMask [] rows)

/-- clean2.py lines 93-109: `df.drop_duplicates(subset=[Food Name])` with the
default keep=first. -/
def simple_deduplicate (rows : List Row) : List Row :=
  pdDropDuplicates [] rows

/-- Modelled from the spec: for each food name keep the first row in input
order; `prev` holds the input rows before the current one. -/
def specKeepFirstAux (prev : List Row) : List Row → List Row
  | [] => []
  | r :: rows =>
    if prev.any (fun q => q.foodName == r.foodName) then specKeepFirstAux (prev ++ [r]) rows
    else r :: specKeepFirstAux (prev ++ [r]) rows

def specKeepFirst (rows : List Row) : List Row := specKeepFirstAux [] rows

lemma maskKeep_eq_dropDuplicates : ∀ (rows : List Row) (seen : List String),
    maskKeep rows (pdDuplicatedMask seen rows) = pdDropDuplicates seen rows := by
  intro rows
  induction rows with
  | nil => intro seen; simp [maskKeep, pdDuplicatedMask, pdDropDuplicates]
  | cons r rest ih =>
    intro seen
    by_cases h : seen.contains r.foodName
    · simp only [pdDuplicatedMask, pdDropDuplicates, h, if_true, maskKeep]
      exact ih seen
    · simp only [pdDuplicatedMask, pdDropDuplicates, h, Bool.false_eq_true, if_false, maskKeep]
      rw [ih (r.foodName :: seen)]

lemma dropDuplicates_eq_specAux : ∀ (rows : List Row) (seen : List String)
    (prev : List Row),
    (∀ s : String, seen.contains s = prev.any (fun q => q.foodName == s)) →
    pdDropDuplicates seen rows = specKeepFirstAux prev rows := by
  intro rows
  induction rows with
  | nil => intro seen prev _; simp [pdDropDuplicates, specKeepFirstAux]
  | cons r rest ih =>
    intro seen prev hsp
    have hnext : ∀ s : String, (r.foodName :: seen).contains s
        = (prev ++ [r]).any (fun q => q.foodName == s) := by
      intro s
      rw [List.contains_cons, List.any_append, hsp s]
      simp only [List.any_cons, List.any_nil, Bool.or_false]
      rw [Bool.or_comm]
      have : (s == r.foodName) = (r.foodName == s) := by
        by_cases h : s = r.foodName
        · rw [h]
        · have h1 : (s == r.foodName) = false := beq_eq_false_iff_ne.mpr h
          have h2 : (r.foodName == s) = false :=
            beq_eq_false_iff_ne.mpr (fun hh => h hh.symm)
          rw [h1, h2]
      rw [this]
    by_cases h : seen.contains r.foodName
    · have hprev : prev.any (fun q => q.foodName == r.foodName) = true := by
        rw [← hsp r.foodName]
        exact h
      simp only [pdDropDuplicates, specKeepFirstAux, h, hprev, if_true]
      apply ih seen (prev ++ [r])
      intro s
      rw [hsp s, List.any_append]
      simp only [List.any_cons, List.any_nil, Bool.or_false]
      by_cases hs : r.foodName = s
      · subst hs
        simp [hprev]
      · have hb : (r.foodName == s) = false := beq_eq_false_iff_ne.mpr hs
        simp [hb]
    · have hprev : prev.any (fun q => q.foodName == r.foodName) = false := by
        rw [← hsp r.foodName]
        simpa using h
      simp only [pdDropDuplicates, specKeepFirstAux, h, hprev, Bool.false_eq_true, if_false]
      rw [ih (r.foodName :: seen) (prev ++ [r]) hnext]

lemma dropDuplicates_id : ∀ (rows : List Row) (seen : List String),
    (∀ r ∈ rows, seen.contains r.foodName = false) →
    (rows.map Row.foodName).Nodup →
    pdDropDuplicates seen rows = rows := by
  intro rows
  induction rows with
  | nil => intro seen _ _; rfl
  | cons r rest ih =>
    intro seen hseen hnd
    have h : seen.contains r.foodName = false := hseen r (List.mem_cons_self _ _)
    simp only [pdDropDuplicates, h, Bool.false_eq_true, if_false]
    rw [List.map_cons, List.nodup_cons] at hnd
    obtain ⟨hnd1, hnd2⟩ := hnd
    rw [ih (r.foodName :: seen) ?hs hnd2]
    intro x hx
    rw [List.contains_cons]
    have h1 : seen.contains x.foodName = false := hseen x (List.mem_cons_of_mem _ hx)
    have h2 : (x.foodName == r.foodName) = false := by
      apply beq_eq_false_iff_ne.mpr
      intro hc
      exact hnd1 (hc ▸ List.mem_map_of_mem Row.foodName hx)
    rw [h1, h2]
    rfl

/-! ### Claim theorems for the Deduplicator -/

/-- C2: for every table with a Food Name column and every input order, the
three deduplication modes keep exactly the same rows in the same order,
namely the first row in input order for each food name. -/
theorem C2_dedup_modes_agree (rows : List Row) :
    remove_duplicate_food_names rows = specKeepFirst rows
      ∧ remove_duplicates_and_summarize rows = specKeepFirst rows
      ∧ simple_deduplicate rows = specKeepFirst rows := by
  have hdrop : pdDropDuplicates [] rows = specKeepFirst rows := by
    apply dropDuplicates_eq_specAux rows [] []
    intro s
    rfl
  refine ⟨hdrop, ?_, hdrop⟩
  unfold remove_duplicates_and_summarize
  rw [maskKeep_eq_dropDuplicates]
  exact hdrop

/-- C9: on an input whose food names are pairwise distinct, the deduplicator
returns the input unchanged, row for row. -/
theorem C9_no_duplicates_identity (rows : List Row)
    (h : (rows.map Row.foodName).Nodup) :
    remove_duplicate_food_names rows = rows := by
  unfold remove_duplicate_food_names
  apply dropDuplicates_id rows [] ?_ h
  intro r _
  rfl

def rowA : Row := ⟨oatsName, [v100]⟩

def rowB : Row := ⟨caloriesStr, [v200]⟩

/-- C9 witness: a concrete two-row table with distinct names is returned
unchanged. -/
theorem C9_no_duplicates_identity_witness :
    remove_duplicate_food_names [rowA, rowB] = [rowA, rowB] :=
  C9_no_duplicates_identity [rowA, rowB] (by decide)

/-! ### Synthetic Food Generator model (generate.py)

The LLM endpoint and JSON parsing are abstracted into per-iteration outcomes:
an iteration either raises (network failure and the like) or returns a
response whose lines are each (a) filtered out for not being a braced
one-line object, (b) a braced line whose JSON parse raises, or (c) a parsed
object.  `str.strip` is modelled by `pyStrip`. -/

def EXISTING_FOODS : List String :=
  [r"Chicken Breast (Raw, Boneless, Skinless)",
   r"Turkey Breast (Ground, 99% Lean)",
   r"Salmon (Atlantic, Raw)",
   r"Greek Yogurt (Non-Fat, Plain)",
   r"Oats (Rolled, Dry)",
   r"Brown Rice (Raw)",
   r"Almonds (Raw)",
   r"Whey Protein Isolate",
   r"Broccoli (Raw)",
   r"Tofu (Extra Firm)"]

/-- A parsed JSON object from one response line; numeric fields are modelled
by the string Python's `str` produces for them, `none` standing for an absent
key (or JSON null). -/
structure FoodJson where
  name : Option String
  brand : Option String
  calories : Option String
  protein : Option String
  carbs : Option String
  fat : Option String
  fiber : Option String
  sugar : Option String
  serving_size : Option String
  serving_unit : Option String
  category : Option String
deriving DecidableEq, Repr

/-- A cleaned, accepted record, fields in the order cleaned_food is built. -/
structure Food where
  name : String
  brand : String
  calories : ℚ
  protein : ℚ
  carbs : ℚ
  fat : ℚ
  fiber : ℚ
  sugar : ℚ
  serving_size : ℚ
  serving_unit : String
  category : String
  confidence : String
  popularity : ℕ
deriving DecidableEq, Repr

def genericStr : String := "Generic"

def gStr : String := "g"

def unknownStr : String := "Unknown"

def estimatedStr : String := "estimated"

/-- generate.py lines 120-135: the cleaned_food dict. -/
def cleanedFood (f : FoodJson) (food_name : String) : Food :=
  ⟨food_name,
   pyStrip (f.brand.getD genericStr),
   clean_numeric_value f.calories 0,
   clean_numeric_value f.protein 0,
   clean_numeric_value f.carbs 0,
   clean_numeric_value f.fat 0,
   clean_numeric_value f.fiber 0,
   clean_numeric_value f.sugar 0,
   clean_numeric_value f.serving_size 100,
   pyStrip (f.serving_unit.getD gStr),
   pyStrip (f.category.getD unknownStr),
   estimatedStr,
   50⟩

inductive LineResult where
  | notObj
  | parseFail
  | obj (f : FoodJson)
deriving DecidableEq, Repr

inductive IterOutcome where
  | err
  | ok (lines : List LineResult)
deriving DecidableEq, Repr

inductive ScriptStep where
  | outcome (o : IterOutcome)
  | interrupt
deriving DecidableEq, Repr

/-- generate.py lines 112-144: processing one response line against the
running (generated_foods, existing_names, new_count) accumulator. -/
def processLine (st : List Food × List String × ℕ) (l : LineResult) :
    List Food × List String × ℕ :=
  match l with
  | .notObj => st
  | .parseFail => st
  | .obj f =>
    let food_name := pyStrip (f.name.getD emptyStr)
    if (!(food_name == emptyStr)) && (!(st.2.1.contains food_name)) then
      (st.1 ++ [cleanedFood f food_name], st.2.1 ++ [food_name], st.2.2 + 1)
    else st

structure GenState where
  generated : List Food
  existingNames : List String
  iteration : ℕ
  emptyIters : ℕ
  checkpoints : List (ℕ × List Food)
  networkCalls : ℕ
deriving DecidableEq, Repr

def max_empty_iterations : ℕ := 10

def iterResult (st : GenState) (lines : List LineResult) :
    List Food × List String × ℕ :=
  lines.foldl processLine (st.generated, st.existingNames, 0)

def iterNewCount (st : GenState) (lines : List LineResult) : ℕ :=
  (iterResult st lines).2.2

/-- One pass of the generation loop body (generate.py lines 74-167): the
iteration counter advances before the try block; an error leaves foods, names,
the empty counter and the checkpoints untouched; a successful pass folds the
lines, resets or increments the empty counter by new_count, and writes a
checkpoint when the iteration number divides by 5 and foods exist. -/
def runIteration (st : GenState) (o : IterOutcome) : GenState :=
  let it := st.iteration + 1
  match o with
  | .err =>
    ⟨st.generated, st.existingNames, it, st.emptyIters, st.checkpoints,
     st.networkCalls + 1⟩
  | .ok lines =>
    let res := iterResult st lines
    let empty := if res.2.2 > 0 then 0 else st.emptyIters + 1
    let cps :=
      if it % 5 == 0 && !res.1.isEmpty then st.checkpoints ++ [(it, res.1)]
      else st.checkpoints
    ⟨res.1, res.2.1, it, empty, cps, st.networkCalls + 1⟩

/-- The while loop: it runs while the empty counter is below the threshold,
consumes one outcome per iteration, and a user interrupt (which arrives after
the iteration counter advance, before the response is processed) breaks out. -/
def runGen : GenState → List ScriptStep → GenState
  | st, [] => st
  | st, s :: rest =>
    if st.emptyIters < max_empty_iterations then
      match s with
      | .interrupt =>
        ⟨st.generated, st.existingNames, st.iteration + 1, st.emptyIters,
         st.checkpoints, st.networkCalls⟩
      | .outcome o => runGen (runIteration st o) rest
    else st

def initGenState : GenState := ⟨[], EXISTING_FOODS, 0, 0, [], 0⟩

/-! ### Generator loop lemmas -/

lemma runGen_stopped {st : GenState} (h : max_empty_iterations ≤ st.emptyIters) :
    ∀ script : List ScriptStep, runGen st script = st := by
  intro script
  cases script with
  | nil => rfl
  | cons s rest =>
    simp only [runGen]
    rw [if_neg (Nat.not_lt.mpr h)]

lemma runGen_ten_empty : ∀ (n : ℕ) (st : GenState) (rest : List ScriptStep),
    max_empty_iterations ≤ st.emptyIters + n →
    runGen st (List.replicate n (ScriptStep.outcome (IterOutcome.ok [])) ++ rest)
      = runGen st (List.replicate n (ScriptStep.outcome (IterOutcome.ok []))) := by
  intro n
  induction n with
  | zero =>
    intro st rest h
    simp only [List.replicate, List.nil_append]
    rw [runGen_stopped (by simpa using h) rest]
    rfl
  | succ k ih =>
    intro st rest h
    by_cases hlt : st.emptyIters < max_empty_iterations
    · simp only [List.replicate_succ, List.cons_append, runGen]
      rw [if_pos hlt, if_pos hlt]
      apply ih
      have he : (runIteration st (IterOutcome.ok [])).emptyIters = st.emptyIters + 1 := rfl
      rw [he]
      omega
    · have hge := Nat.not_lt.mp hlt
      rw [runGen_stopped hge, runGen_stopped hge]

/-- C1 (amended): the consecutive-empty-iteration counter resets to zero when
a successful iteration accepts at least one new record and increments when a
successful iteration accepts none, but an iteration that ends in an error
leaves it unchanged (rather than incrementing it); the loop consumes nothing
further once the counter has reached the threshold 10, and ten consecutive
record-free successful iterations always drive it there, after which no
further outcomes (network calls) are consumed. -/
theorem C1_empty_iteration_counter :
    (∀ (st : GenState) (lines : List LineResult),
        (runIteration st (IterOutcome.ok lines)).emptyIters
          = if iterNewCount st lines > 0 then 0 else st.emptyIters + 1)
      ∧ (∀ st : GenState,
          (runIteration st IterOutcome.err).emptyIters = st.emptyIters)
      ∧ (∀ (st : GenState) (script : List ScriptStep),
          max_empty_iterations ≤ st.emptyIters → runGen st script = st)
      ∧ (∀ (st : GenState) (rest : List ScriptStep),
          runGen st (List.replicate max_empty_iterations
              (ScriptStep.outcome (IterOutcome.ok [])) ++ rest)
            = runGen st (List.replicate max_empty_iterations
                (ScriptStep.outcome (IterOutcome.ok [])))) := by
  refine ⟨fun st lines => rfl, fun st => rfl, ?_, ?_⟩
  · intro st script h
    exact runGen_stopped h script
  · intro st rest
    exact runGen_ten_empty max_empty_iterations st rest (by omega)

/-- C1 counterexample: an iteration that ends in an error yields zero new
accepted records, yet the code leaves the consecutive-empty-iteration counter
unchanged instead of incrementing it as the claim states. -/
theorem C1_counterexample :
    ¬ ((runIteration initGenState IterOutcome.err).emptyIters
        = initGenState.emptyIters + 1) := by decide

/-- C1 witness: a state whose counter has reached the threshold consumes no
further outcome. -/
theorem C1_empty_iteration_counter_witness :
    runGen ⟨[], EXISTING_FOODS, 12, 10, [], 12⟩
        [ScriptStep.outcome IterOutcome.err]
      = ⟨[], EXISTING_FOODS, 12, 10, [], 12⟩ :=
  C1_empty_iteration_counter.2.2.1 _ _ (by decide)

/-! ### Checkpointing (C7) -/

def fiveEmptyScript : List ScriptStep :=
  List.replicate 5 (ScriptStep.outcome (IterOutcome.ok []))

/-- C7 counterexample: after five record-free iterations the iteration number
is 5, a multiple of 5, yet no checkpoint has been written, because the code
writes one only when the accumulated result set is non-empty. -/
theorem C7_counterexample :
    (runGen initGenState fiveEmptyScript).iteration = 5
      ∧ (runGen initGenState fiveEmptyScript).iteration % 5 = 0
      ∧ (runGen initGenState fiveEmptyScript).checkpoints = [] := by decide

/-- C7 (amended): a successful iteration appends exactly one checkpoint,
labelled with the new iteration number and carrying the accumulated result
set, precisely when that number is a multiple of 5 and the result set is
non-empty; in every other case, error iterations included, the checkpoint
list is unchanged. -/
theorem C7_checkpointing :
    (∀ (st : GenState) (lines : List LineResult),
        ((runIteration st (IterOutcome.ok lines)).iteration % 5 = 0 →
            (runIteration st (IterOutcome.ok lines)).generated ≠ [] →
            (runIteration st (IterOutcome.ok lines)).checkpoints
              = st.checkpoints
                ++ [((runIteration st (IterOutcome.ok lines)).iteration,
                     (runIteration st (IterOutcome.ok lines)).generated)])
          ∧ (((runIteration st (IterOutcome.ok lines)).iteration % 5 ≠ 0
                ∨ (runIteration st (IterOutcome.ok lines)).generated = []) →
            (runIteration st (IterOutcome.ok lines)).checkpoints = st.checkpoints))
      ∧ ∀ st : GenState,
          (runIteration st IterOutcome.err).checkpoints = st.checkpoints := by
  refine ⟨?_, fun st => rfl⟩
  intro st lines
  constructor
  · intro h5 hne
    simp only [runIteration] at h5 hne ⊢
    have hb1 : ((st.iteration + 1) % 5 == 0) = true := beq_iff_eq.mpr h5
    have hb2 : (iterResult st lines).1.isEmpty = false := by
      cases hE : (iterResult st lines).1 with
      | nil => exact absurd hE hne
      | cons a l => rfl
    simp [hb1, hb2]
  · intro h
    simp only [runIteration] at h ⊢
    rcases h with h | h
    · have hb1 : ((st.iteration + 1) % 5 == 0) = false := beq_eq_false_iff_ne.mpr h
      simp [hb1]
    · have hb2 : (iterResult st lines).1.isEmpty = true := by
        rw [h]
        rfl
      simp [hb2]

def wFood : Food :=
  ⟨oatsName, genericStr, 0, 0, 0, 0, 0, 0, 100, gStr, unknownStr, estimatedStr, 50⟩

/-- C7 witness: a successful fifth iteration with one accumulated food writes
the checkpoint labelled 5. -/
theorem C7_checkpointing_witness :
    (runIteration ⟨[wFood], EXISTING_FOODS, 4, 0, [], 4⟩ (IterOutcome.ok [])).checkpoints
      = [(5, [wFood])] := by
  have h := (C7_checkpointing.1 ⟨[wFood], EXISTING_FOODS, 4, 0, [], 4⟩ []).1
    (by decide) (by decide)
  exact h.trans (by decide)

/-! ### Name uniqueness invariant (C6) -/

lemma contains_iff_mem : ∀ (l : List String) (a : String), l.contains a = true ↔ a ∈ l := by
  intro l a
  induction l with
  | nil => simp [List.contains]
  | cons x xs ih =>
    rw [List.contains_cons]
    simp [List.mem_cons, ih, beq_iff_eq]

def GenInv (gen : List Food) (names : List String) : Prop :=
  (∀ s ∈ EXISTING_FOODS, s ∈ names)
    ∧ (∀ f ∈ gen, f.name ∈ names)
    ∧ (gen.map Food.name).Nodup
    ∧ (∀ f ∈ gen, f.name ≠ emptyStr ∧ f.name ∉ EXISTING_FOODS)

lemma processLine_inv {gen : List Food} {names : List String} {cnt : ℕ}
    (h : GenInv gen names) (l : LineResult) :
    GenInv (processLine (gen, names, cnt) l).1 (processLine (gen, names, cnt) l).2.1 := by
  cases l with
  | notObj => exact h
  | parseFail => exact h
  | obj f =>
    simp only [processLine]
    by_cases hc : (!(pyStrip (f.name.getD emptyStr) == emptyStr))
        && (!(names.contains (pyStrip (f.name.getD emptyStr))))
    · rw [if_pos hc]
      rw [Bool.and_eq_true, Bool.not_eq_true', Bool.not_eq_true'] at hc
      obtain ⟨h1, h2⟩ := hc
      have hne : pyStrip (f.name.getD emptyStr) ≠ emptyStr := by
        intro hcn
        rw [beq_eq_false_iff_ne] at h1
        exact h1 hcn
      have hnotmem : pyStrip (f.name.getD emptyStr) ∉ names := by
        intro hm
        rw [(contains_iff_mem names _).mpr hm] at h2
        cases h2
      obtain ⟨hA, hB, hC, hD⟩ := h
      refine ⟨?_, ?_, ?_, ?_⟩
      · intro s hs
        exact List.mem_append_left _ (hA s hs)
      · intro f0 hf0
        rcases List.mem_append.mp hf0 with hf | hf
        · exact List.mem_append_left _ (hB f0 hf)
        · have hfe : f0 = cleanedFood f (pyStrip (f.name.getD emptyStr)) := by simpa using hf
          rw [hfe]
          exact List.mem_append_right _ (by simp [cleanedFood])
      · rw [List.map_append, List.nodup_append]
        refine ⟨hC, by simp, ?_⟩
        intro a ha hb
        have ha2 : a ∈ names := by
          obtain ⟨f0, hf0, rfl⟩ := List.mem_map.mp ha
          exact hB f0 hf0
        have hb2 : a = pyStrip (f.name.getD emptyStr) := by
          simpa [cleanedFood] using hb
        rw [hb2] at ha2
        exact hnotmem ha2
      · intro f0 hf0
        rcases List.mem_append.mp hf0 with hf | hf
        · exact hD f0 hf
        · have hfe : f0 = cleanedFood f (pyStrip (f.name.getD emptyStr)) := by simpa using hf
          rw [hfe]
          constructor
          · exact hne
          · intro hmem
            exact hnotmem (hA _ hmem)
    · rw [if_neg hc]
      exact h

lemma foldl_processLine_inv : ∀ (lines : List LineResult) (gen : List Food)
    (names : List String) (cnt : ℕ), GenInv gen names →
    GenInv (lines.foldl processLine (gen, names, cnt)).1
      (lines.foldl processLine (gen, names, cnt)).2.1 := by
  intro lines
  induction lines with
  | nil => intro gen names cnt h; exact h
  | cons l rest ih =>
    intro gen names cnt h
    rw [List.foldl_cons]
    have h2 := @processLine_inv gen names cnt h l
    rcases hPL : processLine (gen, names, cnt) l with ⟨g2, n2, c2⟩
    rw [hPL] at h2
    exact ih g2 n2 c2 h2

lemma runIteration_inv {st : GenState} (h : GenInv st.generated st.existingNames)
    (o : IterOutcome) :
    GenInv (runIteration st o).generated (runIteration st o).existingNames := by
  cases o with
  | err => exact h
  | ok lines => exact foldl_processLine_inv lines st.generated st.existingNames 0 h

lemma runGen_inv : ∀ (script : List ScriptStep) (st : GenState),
    GenInv st.generated st.existingNames →
    GenInv (runGen st script).generated (runGen st script).existingNames := by
  intro script
  induction script with
  | nil => intro st h; exact h
  | cons s rest ih =>
    intro st h
    simp only [runGen]
    by_cases hlt : st.emptyIters < max_empty_iterations
    · rw [if_pos hlt]
      cases s with
      | interrupt => exact h
      | outcome o => exact ih _ (runIteration_inv h o)
    · rw [if_neg hlt]
      exact h

/-- C6: every accepted record of a run has a non-empty name, distinct (exact
string comparison) from all previously accepted names and from every name of
the fixed pre-existing foods list; and a parsed candidate with an absent or
blank name, or a name already in the seen set, is discarded without changing
any accumulator. -/
theorem C6_accepted_names_unique :
    (∀ script : List ScriptStep,
        (((runGen initGenState script).generated.map Food.name).Nodup
          ∧ ∀ f ∈ (runGen initGenState script).generated,
              f.name ≠ emptyStr ∧ f.name ∉ EXISTING_FOODS))
      ∧ (∀ (gen : List Food) (names : List String) (cnt : ℕ) (f : FoodJson),
          (pyStrip (f.name.getD emptyStr) = emptyStr
              ∨ names.contains (pyStrip (f.name.getD emptyStr)) = true) →
          processLine (gen, names, cnt) (LineResult.obj f) = (gen, names, cnt)) := by
  constructor
  · intro script
    have h0 : GenInv ([] : List Food) EXISTING_FOODS :=
      ⟨fun s hs => hs, by simp, by simp, by simp⟩
    have h := runGen_inv script initGenState h0
    exact ⟨h.2.2.1, h.2.2.2⟩
  · intro gen names cnt f h
    simp only [processLine]
    rcases h with h | h
    · have hb : ((pyStrip (f.name.getD emptyStr) == emptyStr)) = true := beq_iff_eq.mpr h
      simp [hb]
    · have hcond : ((!(pyStrip (f.name.getD emptyStr) == emptyStr))
          && (!(names.contains (pyStrip (f.name.getD emptyStr))))) = false := by
        rw [h]
        simp
      simp only [hcond, Bool.false_eq_true, if_false]

/-- C6 witness: an error-only run keeps the empty accepted list trivially
name-unique, and a candidate whose name is blank is discarded. -/
theorem C6_accepted_names_unique_witness :
    ((runGen initGenState [ScriptStep.outcome IterOutcome.err]).generated.map Food.name).Nodup
      ∧ processLine ([], EXISTING_FOODS, 0)
          (LineResult.obj ⟨some emptyStr, none, none, none, none, none, none,
            none, none, none, none⟩)
          = ([], EXISTING_FOODS, 0) :=
  ⟨(C6_accepted_names_unique.1 [ScriptStep.outcome IterOutcome.err]).1,
   C6_accepted_names_unique.2 [] EXISTING_FOODS 0 _ (Or.inl (by decide))⟩

/-! ### SQL escaping (C8) -/

def doubleSquoteStr : String := String.mk [squote, squote]

/-- generate.py lines 23-28: None becomes the empty string, otherwise each
single quote is replaced by two. -/
def escape_sql_string (text : Option String) : String :=
  match text with
  | none => emptyStr
  | some s => pyReplace s squoteStr doubleSquoteStr

/-- Spec-side escaping: double each embedded single quote, change nothing
else. -/
def specDoubleQuotes (s : String) : String :=
  String.mk (s.toList.flatMap (fun c => if c = squote then [squote, squote] else [c]))

lemma pyReplaceGo_single (q : Char) (new : List Char) :
    ∀ cs : List Char, pyReplaceGo [q] new 0 cs
      = cs.flatMap (fun c => if c = q then new else [c]) := by
  intro cs
  induction cs with
  | nil => rfl
  | cons c rest ih =>
    by_cases h : c = q
    · subst h
      simp [pyReplaceGo, ih]
    · simp [pyReplaceGo, ih, h]

lemma escape_sql_string_spec (s : String) :
    escape_sql_string (some s) = specDoubleQuotes s := by
  show pyReplace s squoteStr doubleSquoteStr = specDoubleQuotes s
  unfold pyReplace specDoubleQuotes
  have h1 : squoteStr.toList = [squote] := rfl
  have h2 : doubleSquoteStr.toList = [squote, squote] := rfl
  rw [h1, h2, pyReplaceGo_single]

def lparenStr : String := "("

def commaSpStr : String := ", "

def rparenCommaStr : String := "),"

def newlineStr : String := String.mk [Char.ofNat 10]

def semicolonStr : String := ";"

/-- One VALUES tuple (generate.py line 179).  Python's rendering of the float
fields is abstracted by the `shw` parameter; every string field goes through
`escape_sql_string` exactly as in the f-string. -/
def sqlValuesLine (shw : ℚ → String) (f : Food) : String :=
  lparenStr ++ squoteStr ++ escape_sql_string (some f.name) ++ squoteStr ++ commaSpStr
    ++ squoteStr ++ escape_sql_string (some f.brand) ++ squoteStr ++ commaSpStr
    ++ shw f.calories ++ commaSpStr
    ++ shw f.protein ++ commaSpStr
    ++ shw f.carbs ++ commaSpStr
    ++ shw f.fat ++ commaSpStr
    ++ shw f.fiber ++ commaSpStr
    ++ shw f.sugar ++ commaSpStr
    ++ shw f.serving_size ++ commaSpStr
    ++ squoteStr ++ escape_sql_string (some f.serving_unit) ++ squoteStr ++ commaSpStr
    ++ squoteStr ++ escape_sql_string (some f.confidence) ++ squoteStr ++ commaSpStr
    ++ toString f.popularity ++ commaSpStr
    ++ squoteStr ++ escape_sql_string (some f.category) ++ squoteStr ++ rparenCommaStr

def sqlHeader : String :=
  r"INSERT INTO public.food_catalog (" ++ newlineStr
    ++ r"  name, " ++ newlineStr
    ++ r"  brand, " ++ newlineStr
    ++ r"  calories, " ++ newlineStr
    ++ r"  protein, " ++ newlineStr
    ++ r"  carbs, " ++ newlineStr
    ++ r"  fat, " ++ newlineStr
    ++ r"  fiber, " ++ newlineStr
    ++ r"  sugar, " ++ newlineStr
    ++ r"  serving_size, " ++ newlineStr
    ++ r"  serving_unit, " ++ newlineStr
    ++ r"  confidence, " ++ newlineStr
    ++ r"  popularity, " ++ newlineStr
    ++ r"  category" ++ newlineStr
    ++ r") VALUES " ++ newlineStr

/-- Python `rstrip(",")`: drop every trailing comma. -/
def pyRstripCommas (s : String) : String :=
  String.mk ((s.toList.reverse.dropWhile (fun c => c == commaChar)).reverse)

/-- generate.py lines 177-204: join the tuples under the header, strip the
trailing comma, terminate with a semicolon. -/
def buildSql (shw : ℚ → String) (foods : List Food) : String :=
  pyRstripCommas (sqlHeader ++ String.intercalate newlineStr (foods.map (sqlValuesLine shw)))
    ++ semicolonStr

def obrienName : String := "O" ++ squoteStr ++ "Brien" ++ squoteStr ++ "s Bar"

def obrienEscaped : String := "O" ++ doubleSquoteStr ++ "Brien" ++ doubleSquoteStr ++ "s Bar"

def obrienFood : Food :=
  ⟨obrienName, genericStr, 0, 0, 0, 0, 0, 0, 100, gStr, unknownStr, estimatedStr, 50⟩

def zeroFloatStr : String := "0.0"

def hundredFloatStr : String := "100.0"

/-- Python float rendering restricted to the two values of the example. -/
def showFixed (q : ℚ) : String := if q == (100 : ℚ) then hundredFloatStr else zeroFloatStr

def obrienLineExpected : String :=
  "(" ++ squoteStr ++ obrienEscaped ++ squoteStr
    ++ ", " ++ squoteStr ++ "Generic" ++ squoteStr
    ++ ", 0.0, 0.0, 0.0, 0.0, 0.0, 0.0, 100.0, "
    ++ squoteStr ++ "g" ++ squoteStr ++ ", "
    ++ squoteStr ++ "estimated" ++ squoteStr ++ ", 50, "
    ++ squoteStr ++ "Unknown" ++ squoteStr ++ "),"

def obrienSqlExpected : String :=
  sqlHeader
    ++ "(" ++ squoteStr ++ obrienEscaped ++ squoteStr
    ++ ", " ++ squoteStr ++ "Generic" ++ squoteStr
    ++ ", 0.0, 0.0, 0.0, 0.0, 0.0, 0.0, 100.0, "
    ++ squoteStr ++ "g" ++ squoteStr ++ ", "
    ++ squoteStr ++ "estimated" ++ squoteStr ++ ", 50, "
    ++ squoteStr ++ "Unknown" ++ squoteStr ++ ")" ++ ";"

/-- C8: every string field of a rendered record is escaped by doubling each
embedded single quote and nothing else is altered, and the O-Brien-s-Bar name
renders with doubled quotes inside the generated VALUES tuple and the full
generated statement. -/
theorem C8_sql_escaping :
    (∀ s : String, escape_sql_string (some s) = specDoubleQuotes s)
      ∧ escape_sql_string none = emptyStr
      ∧ escape_sql_string (some obrienName) = obrienEscaped
      ∧ sqlValuesLine showFixed obrienFood = obrienLineExpected
      ∧ buildSql showFixed [obrienFood] = obrienSqlExpected := by
  refine ⟨escape_sql_string_spec, rfl, by decide, by decide, by decide⟩

/-! ### Non-negativity of clean_numeric_value (C10) -/

lemma parseMantissa?_nonneg {cs : List Char} {q : ℚ} (h : parseMantissa? cs = some q) :
    0 ≤ q := by
  unfold parseMantissa? at h
  split at h
  · split at h
    · injection h with h
      rw [← h]
      positivity
    · cases h
  · split at h
    · injection h with h
      rw [← h]
      positivity
    · cases h

lemma parseUnsigned?_nonneg {cs : List Char} {q : ℚ} (h : parseUnsigned? cs = some q) :
    0 ≤ q := by
  unfold parseUnsigned? at h
  split at h
  · exact parseMantissa?_nonneg h
  · split at h
    · rename_i mv ev hm he
      injection h with h
      rw [← h]
      have h1 : (0:ℚ) ≤ mv := parseMantissa?_nonneg hm
      have h2 : (0:ℚ) < (10:ℚ) ^ ev := zpow_pos (by norm_num) ev
      exact mul_nonneg h1 (le_of_lt h2)
    · cases h

lemma char_digit_dot_ne_minus {c : Char} (h : (c.isDigit || c == dotChar) = true) :
    (c == minusChar) = false := by
  by_cases hc : c = minusChar
  · subst hc
    exact absurd h (by decide)
  · exact beq_eq_false_iff_ne.mpr hc

lemma char_digit_dot_ne_plus {c : Char} (h : (c.isDigit || c == dotChar) = true) :
    (c == plusChar) = false := by
  by_cases hc : c = plusChar
  · subst hc
    exact absurd h (by decide)
  · exact beq_eq_false_iff_ne.mpr hc

lemma char_digit_dot_not_ws {c : Char} (h : (c.isDigit || c == dotChar) = true) :
    c.isWhitespace = false := by
  cases hw : c.isWhitespace
  · rfl
  · exfalso
    have hcases := hw
    unfold Char.isWhitespace at hcases
    simp only [Bool.or_eq_true, decide_eq_true_eq] at hcases
    rcases hcases with ((h1 | h1) | h1) | h1 <;> (subst h1; exact absurd h (by decide))

lemma dropWhile_all_false {p : Char → Bool} {l : List Char}
    (h : ∀ c ∈ l, p c = false) : l.dropWhile p = l := by
  cases l with
  | nil => rfl
  | cons c cs =>
    rw [List.dropWhile_cons, h c (List.mem_cons_self _ _)]
    simp

lemma trimWs_eq_self {cs : List Char} (h : ∀ c ∈ cs, c.isWhitespace = false) :
    trimWs cs = cs := by
  unfold trimWs
  rw [dropWhile_all_false h]
  rw [dropWhile_all_false (fun c hc => h c (List.mem_reverse.mp hc))]
  exact List.reverse_reverse cs

lemma pyFloatChars?_digits_nonneg {cs : List Char}
    (hcs : ∀ c ∈ cs, (c.isDigit || c == dotChar) = true) {q : ℚ}
    (h : pyFloatChars? cs = some q) : 0 ≤ q := by
  unfold pyFloatChars? at h
  rw [trimWs_eq_self (fun c hc => char_digit_dot_not_ws (hcs c hc))] at h
  cases cs with
  | nil => simp [pySigned?] at h
  | cons c rest =>
    have hc := hcs c (List.mem_cons_self _ _)
    simp only [pySigned?] at h
    rw [char_digit_dot_ne_minus hc, char_digit_dot_ne_plus hc] at h
    simp only [Bool.false_eq_true, if_false] at h
    exact parseUnsigned?_nonneg h

lemma clean_numeric_value_nonneg (v : Option String) (d : ℚ) (hd : 0 ≤ d) :
    0 ≤ clean_numeric_value v d := by
  unfold clean_numeric_value
  cases v with
  | none => exact hd
  | some s =>
    cases hE : (s.toList.filter (fun c => c.isDigit || c == dotChar)).isEmpty
    · simp only [hE, Bool.false_eq_true, if_false]
      cases hp : pyFloatChars? (s.toList.filter (fun c => c.isDigit || c == dotChar)) with
      | none => exact hd
      | some q =>
        apply pyFloatChars?_digits_nonneg ?_ hp
        intro c hc
        exact (List.mem_filter.mp hc).2
    · simp only [hE, if_true]
      exact hd

/-- C10: clean_numeric_value strips every character other than digits and the
decimal point — the minus sign included — before parsing, so with a
non-negative default the result is always non-negative; the input -5 yields 5
rather than -5, and the two fallback defaults used at the call sites, 0 and
100, are themselves non-negative. -/
theorem C10_clean_numeric_value_nonneg :
    (∀ (v : Option String) (d : ℚ), 0 ≤ d → 0 ≤ clean_numeric_value v d)
      ∧ clean_numeric_value (some strNeg5) 0 = 5
      ∧ ((0 : ℚ) ≤ 0 ∧ (0 : ℚ) ≤ 100) :=
  ⟨clean_numeric_value_nonneg, by decide, by norm_num⟩

/-- C10 witness: the general bound applied at a concrete unparsable input and
the default 0. -/
theorem C10_clean_numeric_value_nonneg_witness :
    (0 : ℚ) ≤ clean_numeric_value (some strNA) 0 :=
  C10_clean_numeric_value_nonneg.1 (some strNA) 0 le_rfl

